import Mathlib

/-!
Verification of the Mail2printer email-to-print pipeline.

This file is a shallow embedding of the core logic of
`mail2printer/service.py`, `mail2printer/email_handler.py` and
`mail2printer/printer_manager.py`, together with theorems settling the
behavioural claims about batch processing, deduplication, attachment
handling, page-count gating, image page-fit and HTML/filename
sanitization.
-/

namespace Mail2Printer

/-! ### Batch processing (`Mail2PrinterService._process_emails`)

Each email of a batch is attempted in order inside a per-email
`try/except`: on success the `emails_processed` counter is incremented,
on an exception the error is logged and the loop continues with the next
email (the increment for the throwing email is skipped). -/

/-- One pass of `Mail2PrinterService._process_emails` over a batch.
`throws e` models `_process_single_email(e)` raising during printing.
Returns the final `emails_processed` counter together with the list of
emails that were attempted, in order. -/
def processEmailsRun (throws : Nat → Bool) : List Nat → Nat → Nat × List Nat
  | [], n => (n, [])
  | e :: es, n =>
    let r := processEmailsRun throws es (if throws e then n else n + 1)
    (r.1, e :: r.2)

/-! ### Per-email print-path decision (`Mail2PrinterService._process_single_email`) -/

/-- The processing-related configuration toggles read by
`_process_single_email` and `_should_print_content`. -/
structure ProcConfig where
  printAttachments : Bool
  printTextEmails : Bool
  printHtmlEmails : Bool
deriving DecidableEq

/-- One extracted attachment, as built by `EmailMessage._handle_attachment`
(the dict with keys filename / content_type / size / data). -/
structure Attachment where
  filename : List Char
  contentType : List Char
  size : Nat
  data : List Nat
deriving DecidableEq

/-- The parsed message fields consulted by the print-path decision. -/
structure EmailMsg where
  textContent : List Char
  htmlContent : List Char
  attachments : List Attachment
deriving DecidableEq

/-- `Mail2PrinterService._should_print_content`: the message has printable
body content iff a body part is non-blank and the corresponding toggle is
enabled (`bool(x.strip())` is modelled as "some non-whitespace char"). -/
def shouldPrintContent (cfg : ProcConfig) (m : EmailMsg) : Bool :=
  let hasText := m.textContent.any (fun c => !c.isWhitespace)
  let hasHtml := m.htmlContent.any (fun c => !c.isWhitespace)
  (hasText && cfg.printTextEmails) || (hasHtml && cfg.printHtmlEmails)

/-- Which print path `_process_single_email` takes for a message. -/
inductive PrintPath where
  | attachmentsOnly
  | bodyPath
  | noOp
deriving DecidableEq

/-- `Mail2PrinterService._process_single_email`: if attachment printing is
enabled and the message has attachments, only `_print_attachments` is
invoked; otherwise the body path is taken when `_should_print_content`
holds; otherwise nothing is printed. -/
def processSingleEmailPath (cfg : ProcConfig) (m : EmailMsg) : PrintPath :=
  if cfg.printAttachments && !m.attachments.isEmpty then .attachmentsOnly
  else if shouldPrintContent cfg m then .bodyPath
  else .noOp

/-! ### Attachment extraction (`EmailMessage._handle_attachment`) -/

/-- A raw MIME part as seen by `EmailMessage._process_part`:
an optional filename (`part.get_filename()`), the Content-Disposition
header string, the content type, and the decoded payload bytes
(`None` models `get_payload(decode=True)` returning nothing). -/
structure MimePart where
  filename : Option (List Char)
  disposition : List Char
  contentType : List Char
  payload : Option (List Nat)

/-- `'attachment' in content_disposition`: substring test on the
Content-Disposition header. -/
def isAttachmentPart (p : MimePart) : Bool :=
  decide (("attachment").toList <:+: p.disposition)

/-- `EmailMessage._handle_attachment`: skip parts without filename or with
an empty/absent payload; skip payloads larger than `maxSize`; otherwise
append the attachment record. -/
def handleAttachment (maxSize : Nat) (atts : List Attachment) (p : MimePart) :
    List Attachment :=
  match p.filename with
  | none => atts
  | some fn =>
    match p.payload with
    | none => atts
    | some data =>
      if data = [] then atts
      else if data.length > maxSize then atts
      else atts ++ [⟨fn, p.contentType, data.length, data⟩]

/-- `EmailMessage._process_part`, restricted to its effect on the
attachment list: parts whose disposition contains `attachment` go through
`_handle_attachment`, all others leave the list unchanged. -/
def processPartAtts (maxSize : Nat) (atts : List Attachment) (p : MimePart) :
    List Attachment :=
  if isAttachmentPart p then handleAttachment maxSize atts p else atts

/-- `EmailMessage._parse_content`, restricted to the attachment list:
fold `_process_part` over all MIME parts of the message. -/
def parseAttachments (maxSize : Nat) (parts : List MimePart) : List Attachment :=
  parts.foldl (processPartAtts maxSize) []

/-! ### Helper lemmas -/

/-- Computation rule for `handleAttachment` on a part given by components. -/
lemma handleAttachment_some (maxSize : Nat) (atts : List Attachment)
    (fn disp ct : List Char) (data : List Nat) :
    handleAttachment maxSize atts ⟨some fn, disp, ct, some data⟩ =
      if data = [] then atts
      else if data.length > maxSize then atts
      else atts ++ [⟨fn, ct, data.length, data⟩] := rfl

lemma mem_handleAttachment {maxSize : Nat} {atts : List Attachment}
    {p : MimePart} {a : Attachment}
    (h : a ∈ handleAttachment maxSize atts p) : a ∈ atts ∨ a.size ≤ maxSize := by
  unfold handleAttachment at h
  split at h
  · exact Or.inl h
  · split at h
    · exact Or.inl h
    · split at h
      · exact Or.inl h
      · split at h
        · exact Or.inl h
        · rename_i hgt
          rcases List.mem_append.mp h with h' | h'
          · exact Or.inl h'
          · right
            rw [List.mem_singleton.mp h']
            exact Nat.le_of_not_lt hgt

lemma mem_processPartAtts {maxSize : Nat} {atts : List Attachment}
    {p : MimePart} {a : Attachment}
    (h : a ∈ processPartAtts maxSize atts p) : a ∈ atts ∨ a.size ≤ maxSize := by
  unfold processPartAtts at h
  by_cases hc : isAttachmentPart p
  · rw [if_pos hc] at h; exact mem_handleAttachment h
  · rw [if_neg hc] at h; exact Or.inl h

lemma parseAttachments_go_size {maxSize : Nat} :
    ∀ (parts : List MimePart) (acc : List Attachment),
      (∀ a ∈ acc, a.size ≤ maxSize) →
      ∀ a ∈ parts.foldl (processPartAtts maxSize) acc, a.size ≤ maxSize := by
  intro parts
  induction parts with
  | nil => intro acc hacc a ha; exact hacc a ha
  | cons p ps ih =>
    intro acc hacc a ha
    refine ih (processPartAtts maxSize acc p) ?_ a ha
    intro b hb
    rcases mem_processPartAtts hb with h | h
    · exact hacc b h
    · exact h

/-! ### Claim theorems: C1, C3, C4 -/

/-- C1 counterexample: in a 3-message batch where exactly message 2 throws
during printing, all three messages are attempted but `emails_processed`
ends at 2, not 3 as the claim states. -/
theorem processEmails_counter_cex :
    (processEmailsRun (fun e => e == 2) [1, 2, 3] 0).2 = [1, 2, 3]
    ∧ ([1, 2, 3].filter (fun e => e == 2)).length = 1
    ∧ (processEmailsRun (fun e => e == 2) [1, 2, 3] 0).1 = 2
    ∧ ¬ (processEmailsRun (fun e => e == 2) [1, 2, 3] 0).1 = 3 := by
  decide

/-- C1 (amended): a throwing email never stops the batch — every email of
the batch is attempted in order — and `emails_processed` ends at its
initial value plus the number of non-throwing emails (the throwing email
is not counted as processed). -/
theorem processEmails_failure_isolation (throws : Nat → Bool)
    (emails : List Nat) (n : Nat) :
    (processEmailsRun throws emails n).2 = emails
    ∧ (processEmailsRun throws emails n).1 =
        n + (emails.filter (fun e => !throws e)).length := by
  induction emails generalizing n with
  | nil => simp [processEmailsRun]
  | cons e es ih =>
    refine ⟨?_, ?_⟩
    · simp [processEmailsRun, (ih _).1]
    · show (processEmailsRun throws es (if throws e then n else n + 1)).1 = _
      rw [(ih _).2]
      cases h : throws e
      · simp [List.filter_cons, h]
        omega
      · simp [List.filter_cons, h]

/-- C3: for every message with at least one attachment, when attachment
printing is enabled, `_process_single_email` takes only the attachment
print path and never the body print path, whatever the text or HTML
content of the message. -/
theorem attachment_only_exclusivity (cfg : ProcConfig) (m : EmailMsg)
    (hA : cfg.printAttachments = true) (hne : m.attachments ≠ []) :
    processSingleEmailPath cfg m = PrintPath.attachmentsOnly
    ∧ processSingleEmailPath cfg m ≠ PrintPath.bodyPath := by
  have hcond : (cfg.printAttachments && !m.attachments.isEmpty) = true := by
    rw [hA]
    simpa [List.isEmpty_iff] using hne
  constructor
  · unfold processSingleEmailPath
    rw [if_pos hcond]
  · unfold processSingleEmailPath
    rw [if_pos hcond]
    intro h
    exact PrintPath.noConfusion h

/-- C3 witness: a concrete message carrying both body text and HTML and one
attachment, with all print toggles on, takes the attachment-only path. -/
theorem attachment_only_exclusivity_witness :
    processSingleEmailPath ⟨true, true, true⟩
        ⟨("hello").toList, ("<p>hi</p>").toList,
         [⟨("a.pdf").toList, ("application/pdf").toList, 3, [1, 2, 3]⟩]⟩
      = PrintPath.attachmentsOnly := by
  exact (attachment_only_exclusivity ⟨true, true, true⟩
    ⟨("hello").toList, ("<p>hi</p>").toList,
     [⟨("a.pdf").toList, ("application/pdf").toList, 3, [1, 2, 3]⟩]⟩
    rfl (by decide)).1

/-- C4: with attachment-size cap `max`, an attachment part whose decoded
payload is `max + 1` bytes is excluded from the attachment list, a part of
exactly `max` bytes (with a positive cap, since an empty payload is
treated as absent) is included, and no attachment of size greater than
`max` is ever constructed during parsing. -/
theorem size_rejection_boundary (max : Nat) :
    (∀ (atts : List Attachment) (fn disp ct : List Char) (data : List Nat),
       data.length = max + 1 →
       processPartAtts max atts ⟨some fn, disp, ct, some data⟩ = atts)
    ∧ (∀ (atts : List Attachment) (fn disp ct : List Char) (data : List Nat),
       ("attachment").toList <:+: disp → data.length = max → 0 < max →
       processPartAtts max atts ⟨some fn, disp, ct, some data⟩ =
         atts ++ [⟨fn, ct, max, data⟩])
    ∧ (∀ (parts : List MimePart) (a : Attachment),
       a ∈ parseAttachments max parts → a.size ≤ max) := by
  refine ⟨?_, ?_, ?_⟩
  · intro atts fn disp ct data hlen
    have hne : data ≠ [] := by
      intro h
      rw [h] at hlen
      simp at hlen
    unfold processPartAtts
    by_cases hc : isAttachmentPart ⟨some fn, disp, ct, some data⟩
    · rw [if_pos hc, handleAttachment_some, if_neg hne,
        if_pos (by omega : data.length > max)]
    · rw [if_neg hc]
  · intro atts fn disp ct data hdisp hlen hpos
    have hne : data ≠ [] := by
      intro h
      rw [h] at hlen
      simp at hlen
      omega
    have hc : isAttachmentPart ⟨some fn, disp, ct, some data⟩ = true := by
      unfold isAttachmentPart
      exact decide_eq_true hdisp
    unfold processPartAtts
    rw [if_pos hc, handleAttachment_some, if_neg hne,
      if_neg (by omega : ¬ data.length > max), hlen]
  · intro parts a ha
    exact parseAttachments_go_size parts [] (by intro b hb; cases hb) a ha

/-- C4 witness: with cap 5, a 6-byte payload is rejected, a 5-byte payload
is accepted, and parsing a message containing both yields only the 5-byte
attachment, whose size is within the cap. -/
theorem size_rejection_boundary_witness :
    processPartAtts 5 []
        ⟨some (("big.bin").toList), ("attachment; filename=big.bin").toList,
         ("application/octet-stream").toList, some [1, 2, 3, 4, 5, 6]⟩ = []
    ∧ processPartAtts 5 []
        ⟨some (("ok.bin").toList), ("attachment; filename=ok.bin").toList,
         ("application/octet-stream").toList, some [1, 2, 3, 4, 5]⟩ =
      [⟨("ok.bin").toList, ("application/octet-stream").toList, 5, [1, 2, 3, 4, 5]⟩]
    ∧ (∀ a ∈ parseAttachments 5
        [⟨some (("big.bin").toList), ("attachment; filename=big.bin").toList,
          ("application/octet-stream").toList, some [1, 2, 3, 4, 5, 6]⟩,
         ⟨some (("ok.bin").toList), ("attachment; filename=ok.bin").toList,
          ("application/octet-stream").toList, some [1, 2, 3, 4, 5]⟩],
        a.size ≤ 5) := by
  refine ⟨?_, ?_, ?_⟩
  · exact (size_rejection_boundary 5).1 [] (("big.bin").toList)
      (("attachment; filename=big.bin").toList)
      (("application/octet-stream").toList) [1, 2, 3, 4, 5, 6] rfl
  · exact (size_rejection_boundary 5).2.1 [] (("ok.bin").toList)
      (("attachment; filename=ok.bin").toList)
      (("application/octet-stream").toList) [1, 2, 3, 4, 5]
      (by decide) rfl (by decide)
  · exact (size_rejection_boundary 5).2.2 _

/-! ### Filename sanitization (`EmailMessage.save_attachments`)

The source runs `re.sub` with the character class of the nine forbidden
characters and the replacement string `_` over each attachment filename
before writing it to the temporary directory. -/

/-- The characters of the character class in
`re.sub` inside `save_attachments`: less-than, greater-than, colon,
double quote, slash, backslash, pipe, question mark, star. -/
def forbiddenFilenameChar (c : Char) : Bool :=
  c == '<' || c == '>' || c == ':' || c == Char.ofNat 34 || c == '/' ||
    c == Char.ofNat 92 || c == '|' || c == '?' || c == '*'

/-- The filename sanitization of `EmailMessage.save_attachments`: each
forbidden character is replaced by an underscore. -/
def sanitizeFilename (fn : List Char) : List Char :=
  fn.map (fun c => if forbiddenFilenameChar c then '_' else c)

/-! ### Polling cycle (`EmailHandler.check_new_emails`) -/

/-- The configuration flags consulted inside the polling cycle. -/
structure CycleConfig where
  markAsRead : Bool
  deleteAfterPrint : Bool
deriving DecidableEq

/-- One fetched message as it enters the cycle loop: the raw Message-ID
header (absent when the message has none) and the combined outcome of
`_should_process_email` for it. -/
structure FetchedMsg where
  rawMessageId : Option String
  passesFilters : Bool

/-- `EmailMessage.__init__`: `raw_message.get('Message-ID', '')` — a
missing header yields the empty string. -/
def parsedMessageId (m : FetchedMsg) : String := m.rawMessageId.getD ""

/-- Observable calls made on the mailbox connection and the print path. -/
inductive MailEvent where
  | markSeen (id : String)
  | flagDeleted (id : String)
  | expungeCall
  | printSubmit (id : String)
deriving DecidableEq

/-- The cycle loop state: the dedup cache (`_processed_message_ids`,
in insertion order), the mailbox calls made so far, and the accepted
batch (message ids, in order). -/
structure CycleState where
  processedIds : List String
  events : List MailEvent
  accepted : List String

/-- The body of the per-message loop in `EmailHandler.check_new_emails`:
skip ids already in the dedup cache; on filter acceptance, store the Seen
flag (when configured), store the Deleted flag (when configured), add the
id to the cache and append the message to the batch. -/
def processFetched (cfg : CycleConfig) (st : CycleState) (m : FetchedMsg) :
    CycleState :=
  let id := parsedMessageId m
  if id ∈ st.processedIds then st
  else if m.passesFilters then
    { processedIds := st.processedIds ++ [id]
      events := st.events ++ (if cfg.markAsRead then [MailEvent.markSeen id] else [])
        ++ (if cfg.deleteAfterPrint then [MailEvent.flagDeleted id] else [])
      accepted := st.accepted ++ [id] }
  else st

/-- The dedup-cache bound at the end of `check_new_emails`: when the cache
holds more than 1000 ids, keep only the last 500 of them
(`list(self._processed_message_ids)[-500:]`, iteration order modelled as
insertion order). -/
def enforceCacheLimit (ids : List String) : List String :=
  if ids.length > 1000 then ids.drop (ids.length - 500) else ids

/-- `EmailHandler.check_new_emails` for one poll cycle: loop over the
fetched messages, expunge once at the end when delete-after-print is
configured, then enforce the dedup-cache bound. -/
def checkNewEmails (cfg : CycleConfig) (processed : List String)
    (msgs : List FetchedMsg) : CycleState :=
  let st := msgs.foldl (processFetched cfg) ⟨processed, [], []⟩
  { processedIds := enforceCacheLimit st.processedIds
    events := st.events ++ (if cfg.deleteAfterPrint then [MailEvent.expungeCall] else [])
    accepted := st.accepted }

/-- `Mail2PrinterService._process_emails` as the print phase following the
cycle: each accepted message id submits `prints id` print jobs, in batch
order. -/
def printPhase (prints : String → Nat) (accepted : List String) :
    List MailEvent :=
  accepted.flatMap (fun id => List.replicate (prints id) (MailEvent.printSubmit id))

/-- A full poll-then-print round of `run_check_loop`: the cycle's mailbox
calls followed by the print submissions of the accepted batch. -/
def cycleTrace (cfg : CycleConfig) (prints : String → Nat)
    (processed : List String) (msgs : List FetchedMsg) : List MailEvent :=
  let st := checkNewEmails cfg processed msgs
  st.events ++ printPhase prints st.accepted

/-- The dedup-claim reading of filename sanitization used only for
comparison: the forbidden characters removed (stripped) from the
filename. -/
def stripForbiddenChars (fn : List Char) : List Char :=
  fn.filter (fun c => !forbiddenFilenameChar c)

/-! ### Cycle lemmas -/

lemma foldl_processFetched_inv {cfg : CycleConfig} {P : CycleState → Prop}
    (hstep : ∀ st m, P st → P (processFetched cfg st m)) :
    ∀ (msgs : List FetchedMsg) (st : CycleState),
      P st → P (msgs.foldl (processFetched cfg) st) := by
  intro msgs
  induction msgs with
  | nil => intro st h; exact h
  | cons m ms ih => intro st h; exact ih _ (hstep st m h)

lemma no_printSubmit_foldl (cfg : CycleConfig) (msgs : List FetchedMsg)
    (st : CycleState) (h : ∀ id, MailEvent.printSubmit id ∉ st.events) :
    ∀ id, MailEvent.printSubmit id ∉
      (msgs.foldl (processFetched cfg) st).events := by
  refine foldl_processFetched_inv
    (P := fun s => ∀ id, MailEvent.printSubmit id ∉ s.events) ?_ msgs st h
  intro st m hInv id hmem
  unfold processFetched at hmem
  by_cases h1 : parsedMessageId m ∈ st.processedIds
  · rw [if_pos h1] at hmem
    exact hInv id hmem
  · rw [if_neg h1] at hmem
    by_cases h2 : m.passesFilters = true
    · rw [if_pos h2] at hmem
      simp only [List.append_assoc, List.mem_append] at hmem
      rcases hmem with hmem | hmem | hmem
      · exact hInv id hmem
      · by_cases h3 : cfg.markAsRead = true
        · rw [if_pos h3, List.mem_singleton] at hmem
          exact MailEvent.noConfusion hmem
        · rw [if_neg h3] at hmem
          cases hmem
      · by_cases h3 : cfg.deleteAfterPrint = true
        · rw [if_pos h3, List.mem_singleton] at hmem
          exact MailEvent.noConfusion hmem
        · rw [if_neg h3] at hmem
          cases hmem
    · rw [if_neg h2] at hmem
      exact hInv id hmem

lemma no_printSubmit_checkNewEmails (cfg : CycleConfig)
    (processed : List String) (msgs : List FetchedMsg) :
    ∀ id, MailEvent.printSubmit id ∉ (checkNewEmails cfg processed msgs).events := by
  intro id hmem
  have hmem' : MailEvent.printSubmit id ∈
      (msgs.foldl (processFetched cfg) ⟨processed, [], []⟩).events
      ++ (if cfg.deleteAfterPrint then [MailEvent.expungeCall] else []) := hmem
  rcases List.mem_append.mp hmem' with h | h
  · exact no_printSubmit_foldl cfg msgs ⟨processed, [], []⟩
      (by intro id' h'; cases h') id h
  · by_cases h3 : cfg.deleteAfterPrint = true
    · rw [if_pos h3, List.mem_singleton] at h
      exact MailEvent.noConfusion h
    · rw [if_neg h3] at h
      cases h

lemma markSeen_of_accepted (cfg : CycleConfig) (processed : List String)
    (msgs : List FetchedMsg) (hmark : cfg.markAsRead = true) :
    ∀ id ∈ (checkNewEmails cfg processed msgs).accepted,
      MailEvent.markSeen id ∈ (checkNewEmails cfg processed msgs).events := by
  have hfold : ∀ id ∈ (msgs.foldl (processFetched cfg) ⟨processed, [], []⟩).accepted,
      MailEvent.markSeen id ∈
        (msgs.foldl (processFetched cfg) ⟨processed, [], []⟩).events := by
    refine foldl_processFetched_inv
      (P := fun s => ∀ id ∈ s.accepted, MailEvent.markSeen id ∈ s.events)
      ?_ msgs ⟨processed, [], []⟩ ?_
    · intro st m hInv id hid
      unfold processFetched at hid ⊢
      by_cases h1 : parsedMessageId m ∈ st.processedIds
      · rw [if_pos h1] at hid ⊢
        exact hInv id hid
      · rw [if_neg h1] at hid ⊢
        by_cases h2 : m.passesFilters = true
        · rw [if_pos h2] at hid ⊢
          simp only [List.append_assoc, List.mem_append]
          rcases List.mem_append.mp hid with hid | hid
          · exact Or.inl (hInv id hid)
          · rw [List.mem_singleton] at hid
            subst hid
            right; left
            rw [if_pos hmark, List.mem_singleton]
        · rw [if_neg h2] at hid ⊢
          exact hInv id hid
    · intro id hid
      cases hid
  intro id hid
  have hid' : id ∈ (msgs.foldl (processFetched cfg) ⟨processed, [], []⟩).accepted := hid
  exact List.mem_append.mpr (Or.inl (hfold id hid'))

lemma printSubmit_mem_printPhase {prints : String → Nat}
    {accepted : List String} {id : String}
    (h : MailEvent.printSubmit id ∈ printPhase prints accepted) : id ∈ accepted := by
  unfold printPhase at h
  obtain ⟨a, ha, hmem⟩ := List.mem_flatMap.mp h
  have heq := List.eq_of_mem_replicate hmem
  injection heq with h3
  rw [h3]
  exact ha

/-! ### Claim theorems: C2, C7, C9, C10 -/

/-- C2: with mark-as-read configured, for every message accepted in a poll
cycle, the Seen-flag store call appears in the cycle trace strictly before
every print-submission call for that message — the mark happens inside
`check_new_emails`, before the batch reaches `_process_emails`. -/
theorem mark_read_before_print (cfg : CycleConfig) (prints : String → Nat)
    (processed : List String) (msgs : List FetchedMsg) (id : String)
    (hmark : cfg.markAsRead = true)
    (hacc : id ∈ (checkNewEmails cfg processed msgs).accepted) :
    ∃ i, (cycleTrace cfg prints processed msgs).get? i
          = some (MailEvent.markSeen id)
      ∧ ∀ j, (cycleTrace cfg prints processed msgs).get? j
          = some (MailEvent.printSubmit id) → i < j := by
  have hmem : MailEvent.markSeen id ∈ (checkNewEmails cfg processed msgs).events :=
    markSeen_of_accepted cfg processed msgs hmark id hacc
  have htr : cycleTrace cfg prints processed msgs =
      (checkNewEmails cfg processed msgs).events
      ++ printPhase prints (checkNewEmails cfg processed msgs).accepted := rfl
  obtain ⟨i, hi⟩ := List.mem_iff_get?.mp hmem
  have hilt : i < (checkNewEmails cfg processed msgs).events.length :=
    (List.get?_eq_some.mp hi).1
  refine ⟨i, ?_, ?_⟩
  · rw [htr, List.get?_append hilt]
    exact hi
  · intro j hj
    rw [htr] at hj
    by_cases hjl : j < (checkNewEmails cfg processed msgs).events.length
    · rw [List.get?_append hjl] at hj
      exact absurd (List.get?_mem hj)
        (no_printSubmit_checkNewEmails cfg processed msgs id)
    · omega

/-- C2 witness: a one-message cycle with mark-as-read on and one print
submission exhibits the mark call before the print call. -/
theorem mark_read_before_print_witness :
    ∃ i, (cycleTrace ⟨true, false⟩ (fun _ => 1) []
            [⟨some ("m1"), true⟩]).get? i
          = some (MailEvent.markSeen ("m1"))
      ∧ ∀ j, (cycleTrace ⟨true, false⟩ (fun _ => 1) []
            [⟨some ("m1"), true⟩]).get? j
          = some (MailEvent.printSubmit ("m1")) → i < j := by
  exact mark_read_before_print ⟨true, false⟩ (fun _ => 1) []
    [⟨some ("m1"), true⟩] ("m1") rfl (by decide)

/-- C7: the dedup cache bound of `check_new_emails` — enforcing the limit
always leaves at most 1000 ids, a cache that exceeded 1000 ids during the
cycle is cut to at most 500 ids, and consequently every poll cycle ends
with at most 1000 cached ids. -/
theorem processed_ids_bounded :
    (∀ ids : List String, (enforceCacheLimit ids).length ≤ 1000)
    ∧ (∀ ids : List String, ids.length > 1000 →
        (enforceCacheLimit ids).length ≤ 500)
    ∧ (∀ (cfg : CycleConfig) (processed : List String) (msgs : List FetchedMsg),
        ((checkNewEmails cfg processed msgs).processedIds).length ≤ 1000) := by
  have h1 : ∀ ids : List String, (enforceCacheLimit ids).length ≤ 1000 := by
    intro ids
    unfold enforceCacheLimit
    by_cases h : ids.length > 1000
    · rw [if_pos h, List.length_drop]
      omega
    · rw [if_neg h]
      omega
  refine ⟨h1, ?_, ?_⟩
  · intro ids h
    unfold enforceCacheLimit
    rw [if_pos h, List.length_drop]
    omega
  · intro cfg processed msgs
    exact h1 _

/-- C7 witness: a cache of 1001 ids is cut to at most 500 by the limit. -/
theorem processed_ids_bounded_witness :
    (List.replicate 1001 ("" : String)).length > 1000
    ∧ (enforceCacheLimit (List.replicate 1001 ("" : String))).length ≤ 500 := by
  have hlen : (List.replicate 1001 ("" : String)).length > 1000 := by
    rw [List.length_replicate]
    omega
  exact ⟨hlen, processed_ids_bounded.2.1 _ hlen⟩

/-- C9 counterexample: on the filename `a<b` the code produces `a_b`
(forbidden characters replaced by underscores), which differs from the
claim's reading of stripping the characters (`ab`). -/
theorem filename_sanitize_cex :
    sanitizeFilename (("a<b").toList) = ("a_b").toList
    ∧ stripForbiddenChars (("a<b").toList) = ("ab").toList
    ∧ ¬ sanitizeFilename (("a<b").toList) = stripForbiddenChars (("a<b").toList) := by
  decide

/-- C9 (amended): before an attachment is written, each of the characters
of the forbidden class in its filename is replaced by an underscore, so
the saved name contains none of those characters and is the original
filename with each such character replaced (length preserved). -/
theorem filename_sanitized (fn : List Char) :
    sanitizeFilename fn = fn.map (fun c => if forbiddenFilenameChar c then '_' else c)
    ∧ (sanitizeFilename fn).length = fn.length
    ∧ ∀ c ∈ sanitizeFilename fn, forbiddenFilenameChar c = false := by
  refine ⟨rfl, by simp [sanitizeFilename], ?_⟩
  intro c hc
  unfold sanitizeFilename at hc
  obtain ⟨a, _, rfl⟩ := List.mem_map.mp hc
  by_cases h : forbiddenFilenameChar a = true
  · rw [if_pos h]
    decide
  · rw [if_neg h]
    simpa using h

/-- C9 witness: on `a<b`, the surviving character `b` is not forbidden and
the sanitized name keeps the original length 3. -/
theorem filename_sanitized_witness :
    forbiddenFilenameChar 'b' = false
    ∧ (sanitizeFilename (("a<b").toList)).length = 3 := by
  constructor
  · exact (filename_sanitized (("a<b").toList)).2.2 'b' (by decide)
  · rw [(filename_sanitized (("a<b").toList)).2.1]
    decide

/-- C10: a message without a Message-ID header parses to the empty-string
id; accepting such a message adds the empty string to the dedup cache; and
whenever the empty string is in the cache at the start of a cycle, no
message lacking a Message-ID is accepted in that cycle and no print
submission for the empty id ever occurs in the cycle's trace. -/
theorem empty_message_id_dedup :
    (∀ m : FetchedMsg, m.rawMessageId = none → parsedMessageId m = "")
    ∧ (∀ (cfg : CycleConfig) (st : CycleState) (m : FetchedMsg),
        m.passesFilters = true → parsedMessageId m ∉ st.processedIds →
        (processFetched cfg st m).processedIds
            = st.processedIds ++ [parsedMessageId m]
        ∧ (processFetched cfg st m).accepted
            = st.accepted ++ [parsedMessageId m])
    ∧ (∀ (cfg : CycleConfig) (prints : String → Nat) (processed : List String)
        (msgs : List FetchedMsg), "" ∈ processed →
        "" ∉ (checkNewEmails cfg processed msgs).accepted
        ∧ MailEvent.printSubmit "" ∉ cycleTrace cfg prints processed msgs) := by
  refine ⟨?_, ?_, ?_⟩
  · intro m h
    unfold parsedMessageId
    rw [h]
    rfl
  · intro cfg st m hpass hnot
    unfold processFetched
    rw [if_neg hnot, if_pos hpass]
    exact ⟨rfl, rfl⟩
  · intro cfg prints processed msgs hproc
    have hfold : "" ∈ (msgs.foldl (processFetched cfg) ⟨processed, [], []⟩).processedIds
        ∧ "" ∉ (msgs.foldl (processFetched cfg) ⟨processed, [], []⟩).accepted := by
      refine foldl_processFetched_inv
        (P := fun s => "" ∈ s.processedIds ∧ "" ∉ s.accepted)
        ?_ msgs ⟨processed, [], []⟩ ⟨hproc, by intro h; cases h⟩
      intro st m hInv
      obtain ⟨h1, h2⟩ := hInv
      unfold processFetched
      by_cases hm : parsedMessageId m ∈ st.processedIds
      · rw [if_pos hm]
        exact ⟨h1, h2⟩
      · rw [if_neg hm]
        by_cases hp : m.passesFilters = true
        · rw [if_pos hp]
          refine ⟨List.mem_append.mpr (Or.inl h1), ?_⟩
          intro hc
          rcases List.mem_append.mp hc with hc | hc
          · exact h2 hc
          · have heq : "" = parsedMessageId m := List.mem_singleton.mp hc
            exact hm (heq ▸ h1)
        · rw [if_neg hp]
          exact ⟨h1, h2⟩
    have hnacc : "" ∉ (checkNewEmails cfg processed msgs).accepted := hfold.2
    refine ⟨hnacc, ?_⟩
    intro htr
    have htr' : MailEvent.printSubmit "" ∈
        (checkNewEmails cfg processed msgs).events
        ++ printPhase prints (checkNewEmails cfg processed msgs).accepted := htr
    rcases List.mem_append.mp htr' with h | h
    · exact no_printSubmit_checkNewEmails cfg processed msgs "" h
    · exact hnacc (printSubmit_mem_printPhase h)

/-- C10 witness: with the empty id already cached, a cycle fetching one
message without a Message-ID accepts nothing and submits no print for the
empty id. -/
theorem empty_message_id_dedup_witness :
    "" ∉ (checkNewEmails ⟨true, false⟩ [""] [⟨none, true⟩]).accepted
    ∧ MailEvent.printSubmit "" ∉ cycleTrace ⟨true, false⟩ (fun _ => 1) [""] [⟨none, true⟩] := by
  exact empty_message_id_dedup.2.2 ⟨true, false⟩ (fun _ => 1) [""] [⟨none, true⟩]
    (by decide)

/-! ### Page-count gating (`PrinterManager._print_file`, `_print_pdf_as_is`,
`_print_file_with_image_options`, `_estimate_page_count`)

`print_file` routes a file by declared content type: PDFs go to
`_print_pdf_as_is` (which submits with no page check), supported images
are converted to a single-page PDF and printed through
`_print_file_with_image_options` (which checks the page limit), and
everything else goes through `_print_file` (which checks the page
limit). -/

/-- The newline character, for line counting. -/
def newlineChar : Char := Char.ofNat 10

/-- A file as seen by the print path: the content type guessed for it,
the page count `pdfinfo` reports for it (`none` models `pdfinfo`
failure), and its content when read as text. -/
structure PFile where
  contentType : Option String
  pdfPages : Option Nat
  textContent : List Char

/-- `content_type.startswith(p)`, modelled as a list prefix test. -/
def strStartsWith (p s : String) : Bool := decide (p.toList <+: s.toList)

/-- `len(content.split(chr(10)))`: one more than the number of newline
characters. -/
def countLines (content : List Char) : Nat := content.count newlineChar + 1

/-- `PrinterManager._estimate_page_count`: PDF content gets the embedded
page count (1 when `pdfinfo` fails), text content is estimated at
`max(1, line_count // 60)`, anything else at 1. -/
def estimatePageCount (f : PFile) (ct : Option String) : Nat :=
  match ct with
  | some c =>
    if c = "application/pdf" then
      match f.pdfPages with
      | some n => n
      | none => 1
    else if strStartsWith ("text/") c then
      max 1 (countLines f.textContent / 60)
    else 1
  | none => 1

/-- The page-limit check shared by `_print_file` and
`_print_file_with_image_options`: when a positive maximum is configured,
reject estimates exceeding it. -/
def pageGate (maxPages : Nat) (estimate : Nat) : Bool :=
  if maxPages > 0 then decide (estimate ≤ maxPages) else true

/-- `PrinterManager.print_file` routing for a given content type: whether
a submission to the spooler occurs (assuming a printer is available and
the spooler accepts the job).  PDFs are submitted as-is by
`_print_pdf_as_is` with no page check; supported images are converted to
a one-page PDF and gated; unsupported image subtypes are rejected;
everything else is gated by `_print_file`. -/
def printFileSubmitsCT (maxPages : Nat) (f : PFile) (ct : Option String) : Bool :=
  match ct with
  | some c =>
    if c = "application/pdf" then true
    else if strStartsWith ("image/") c then
      if c = "image/png" ∨ c = "image/jpeg" ∨ c = "image/jpg" then
        pageGate maxPages 1
      else false
    else pageGate maxPages (estimatePageCount f (some c))
  | none => pageGate maxPages (estimatePageCount f none)

/-- `PrinterManager.print_file` on a file, using its guessed content type. -/
def printFileSubmits (maxPages : Nat) (f : PFile) : Bool :=
  printFileSubmitsCT maxPages f f.contentType

/-! ### Image page-fit (`PrinterManager._image_to_pdf`) -/

/-- A4 page width in points (the source's `A4_WIDTH_PT = 595`). -/
def a4WidthPt : ℚ := 595

/-- A4 page height in points (the source's `A4_HEIGHT_PT = 842`). -/
def a4HeightPt : ℚ := 842

/-- 10mm in points (the source's `margin_pt = 28.35`). -/
def marginPt : ℚ := 2835 / 100

/-- Available width with the preferred margins. -/
def availW : ℚ := a4WidthPt - 2 * marginPt

/-- Available height with the preferred margins. -/
def availH : ℚ := a4HeightPt - 2 * marginPt

/-- The first scale computation, with 10mm margins:
`min(available_width / orig_width, available_height / orig_height)`. -/
def scaleWithMargins (ow oh : ℚ) : ℚ := min (availW / ow) (availH / oh)

/-- The retry scale computation with zero margins. -/
def scaleNoMargins (ow oh : ℚ) : ℚ := min (a4WidthPt / ow) (a4HeightPt / oh)

/-- The scale actually used: the margin scale unless it fell below 0.1,
in which case the zero-margin scale. -/
def finalScale (ow oh : ℚ) : ℚ :=
  if scaleWithMargins ow oh < 1 / 10 then scaleNoMargins ow oh
  else scaleWithMargins ow oh

/-- The margin actually used (0 after the retry). -/
def finalMargin (ow oh : ℚ) : ℚ :=
  if scaleWithMargins ow oh < 1 / 10 then 0 else marginPt

/-- The output of `_image_to_pdf`'s geometry: page size, margin, scale,
final image size (`int(orig * scale)`) and paste position
(`int((page - final) / 2)` on each axis). -/
structure ImageFit where
  pageW : ℚ
  pageH : ℚ
  usedMargin : ℚ
  scale : ℚ
  finalW : ℤ
  finalH : ℤ
  xPos : ℤ
  yPos : ℤ
deriving DecidableEq

/-- `PrinterManager._image_to_pdf`, geometry part: the page is always A4
portrait; scale and margin as above; the resized image is centered on the
page. -/
def imageToPdfFit (ow oh : ℚ) : ImageFit :=
  let s := finalScale ow oh
  let fw := ⌊ow * s⌋
  let fh := ⌊oh * s⌋
  { pageW := a4WidthPt, pageH := a4HeightPt,
    usedMargin := finalMargin ow oh, scale := s,
    finalW := fw, finalH := fh,
    xPos := ⌊(a4WidthPt - fw) / 2⌋, yPos := ⌊(a4HeightPt - fh) / 2⌋ }

/-- Modelled from the spec wording of the page-fit algorithm (for
comparison with the source translation `imageToPdfFit`): fixed 595×842pt
A4 portrait target, scale = min of the per-axis ratios against the page
minus 2×28.35pt margins, recomputed with zero margins when below 0.1,
image resized by the final scale and centered at
`((pageW - finalW) / 2, (pageH - finalH) / 2)`. -/
def pageFitSpec (ow oh : ℚ) : ImageFit :=
  let pw : ℚ := 595
  let ph : ℚ := 842
  let margin : ℚ := 2835 / 100
  let s1 := min ((pw - 2 * margin) / ow) ((ph - 2 * margin) / oh)
  let s := if s1 < 1 / 10 then min (pw / ow) (ph / oh) else s1
  let m := if s1 < 1 / 10 then (0 : ℚ) else margin
  let fw := ⌊ow * s⌋
  let fh := ⌊oh * s⌋
  { pageW := pw, pageH := ph, usedMargin := m, scale := s,
    finalW := fw, finalH := fh,
    xPos := ⌊(pw - fw) / 2⌋, yPos := ⌊(ph - fh) / 2⌋ }

/-! ### Page-fit lemmas -/

lemma finalScale_nonneg (ow oh : ℚ) (hw : 0 < ow) (hh : 0 < oh) :
    0 ≤ finalScale ow oh := by
  unfold finalScale
  split
  · refine le_min (div_nonneg ?_ hw.le) (div_nonneg ?_ hh.le)
    · norm_num [a4WidthPt]
    · norm_num [a4HeightPt]
  · refine le_min (div_nonneg ?_ hw.le) (div_nonneg ?_ hh.le)
    · norm_num [availW, a4WidthPt, marginPt]
    · norm_num [availH, a4HeightPt, marginPt]

lemma finalScale_mul_w_le (ow oh : ℚ) (hw : 0 < ow) (_hh : 0 < oh) :
    ow * finalScale ow oh ≤ a4WidthPt := by
  unfold finalScale
  split
  · have h1 : scaleNoMargins ow oh ≤ a4WidthPt / ow :=
      min_le_left _ _
    calc ow * scaleNoMargins ow oh ≤ ow * (a4WidthPt / ow) :=
          mul_le_mul_of_nonneg_left h1 hw.le
      _ = a4WidthPt := by field_simp
  · have h1 : scaleWithMargins ow oh ≤ availW / ow :=
      min_le_left _ _
    calc ow * scaleWithMargins ow oh ≤ ow * (availW / ow) :=
          mul_le_mul_of_nonneg_left h1 hw.le
      _ = availW := by field_simp
      _ ≤ a4WidthPt := by norm_num [availW, a4WidthPt, marginPt]

lemma finalScale_mul_h_le (ow oh : ℚ) (_hw : 0 < ow) (hh : 0 < oh) :
    oh * finalScale ow oh ≤ a4HeightPt := by
  unfold finalScale
  split
  · have h1 : scaleNoMargins ow oh ≤ a4HeightPt / oh :=
      min_le_right _ _
    calc oh * scaleNoMargins ow oh ≤ oh * (a4HeightPt / oh) :=
          mul_le_mul_of_nonneg_left h1 hh.le
      _ = a4HeightPt := by field_simp
  · have h1 : scaleWithMargins ow oh ≤ availH / oh :=
      min_le_right _ _
    calc oh * scaleWithMargins ow oh ≤ oh * (availH / oh) :=
          mul_le_mul_of_nonneg_left h1 hh.le
      _ = availH := by field_simp
      _ ≤ a4HeightPt := by norm_num [availH, a4HeightPt, marginPt]

/-! ### Claim theorems: C5, C6 -/

/-- C5 counterexample: a 100-page PDF with a configured maximum of 50
pages is still submitted — `print_file` routes PDFs to
`_print_pdf_as_is`, which performs no page-count estimation. -/
theorem page_gate_cex :
    printFileSubmits 50 ⟨some ("application/pdf"), some 100, []⟩ = true
    ∧ estimatePageCount ⟨some ("application/pdf"), some 100, []⟩
        (some ("application/pdf")) = 100
    ∧ 100 > 50 := by
  refine ⟨rfl, rfl, by omega⟩

/-- C5 (amended): the page estimate is the PDF's embedded page count for
PDF content and `max(1, line_count // 60)` for text content, and — when a
positive maximum is configured — a file routed through the generic
`_print_file` path (neither a PDF, which skips the check, nor an image)
whose estimate exceeds the maximum is rejected with no submission. -/
theorem page_gating (maxPages : Nat) :
    (∀ (f : PFile) (c : String), 0 < maxPages → f.contentType = some c →
       c ≠ "application/pdf" → strStartsWith ("image/") c = false →
       estimatePageCount f (some c) > maxPages →
       printFileSubmits maxPages f = false)
    ∧ (∀ f : PFile, estimatePageCount f (some ("text/plain"))
        = max 1 ((f.textContent.count newlineChar + 1) / 60))
    ∧ (∀ (f : PFile) (n : Nat), f.pdfPages = some n →
        estimatePageCount f (some ("application/pdf")) = n) := by
  refine ⟨?_, ?_, ?_⟩
  · intro f c hpos hct hpdf himg hover
    unfold printFileSubmits
    rw [hct]
    simp only [printFileSubmitsCT]
    rw [if_neg hpdf, if_neg (by rw [himg]; exact Bool.false_ne_true)]
    unfold pageGate
    rw [if_pos hpos]
    exact decide_eq_false (by omega)
  · intro f
    simp only [estimatePageCount]
    rw [if_neg (by decide), if_pos (by decide)]
    rfl
  · intro f n hpp
    simp [estimatePageCount, hpp]

set_option maxRecDepth 4000 in
/-- C5 witness: with a maximum of 1 page, a plain-text file of 120 lines
(estimate 2) is rejected with no submission. -/
theorem page_gating_witness :
    printFileSubmits 1
      ⟨some ("text/plain"), none, List.replicate 120 newlineChar⟩ = false
    ∧ estimatePageCount
        ⟨some ("text/plain"), none, List.replicate 120 newlineChar⟩
        (some ("text/plain")) = 2 := by
  constructor
  · exact (page_gating 1).1
      ⟨some ("text/plain"), none, List.replicate 120 newlineChar⟩
      ("text/plain") (by omega) rfl (by decide) (by decide) (by decide)
  · decide

/-- C6: the image-to-PDF geometry of `_image_to_pdf` agrees exactly with
the spec's page-fit algorithm (A4 portrait 595×842pt target, min-ratio
scale with 28.35pt margins, zero-margin retry below 0.1, centering at
`((pageW - finalW) / 2, (pageH - finalH) / 2)`), and for any positive
source dimensions the output page is portrait A4 with the scaled image
fitting on the page and centered at nonnegative coordinates. -/
theorem image_page_fit (ow oh : ℚ) (hw : 0 < ow) (hh : 0 < oh) :
    imageToPdfFit ow oh = pageFitSpec ow oh
    ∧ (imageToPdfFit ow oh).pageW = 595
    ∧ (imageToPdfFit ow oh).pageH = 842
    ∧ 0 ≤ (imageToPdfFit ow oh).finalW
    ∧ (imageToPdfFit ow oh).finalW ≤ 595
    ∧ 0 ≤ (imageToPdfFit ow oh).finalH
    ∧ (imageToPdfFit ow oh).finalH ≤ 842
    ∧ (imageToPdfFit ow oh).xPos
        = ⌊((595 - (imageToPdfFit ow oh).finalW : ℚ)) / 2⌋
    ∧ (imageToPdfFit ow oh).yPos
        = ⌊((842 - (imageToPdfFit ow oh).finalH : ℚ)) / 2⌋
    ∧ 0 ≤ (imageToPdfFit ow oh).xPos
    ∧ 0 ≤ (imageToPdfFit ow oh).yPos := by
  have hsnn : 0 ≤ finalScale ow oh := finalScale_nonneg ow oh hw hh
  have hfw0 : 0 ≤ (imageToPdfFit ow oh).finalW :=
    Int.floor_nonneg.mpr (mul_nonneg hw.le hsnn)
  have hfh0 : 0 ≤ (imageToPdfFit ow oh).finalH :=
    Int.floor_nonneg.mpr (mul_nonneg hh.le hsnn)
  have hfwle : (imageToPdfFit ow oh).finalW ≤ 595 := by
    have h1 : ow * finalScale ow oh ≤ a4WidthPt :=
      finalScale_mul_w_le ow oh hw hh
    have h2 : (⌊ow * finalScale ow oh⌋ : ℤ) ≤ ⌊a4WidthPt⌋ :=
      Int.floor_le_floor h1
    have h3 : (⌊a4WidthPt⌋ : ℤ) = 595 := by norm_num [a4WidthPt]
    exact h3 ▸ h2
  have hfhle : (imageToPdfFit ow oh).finalH ≤ 842 := by
    have h1 : oh * finalScale ow oh ≤ a4HeightPt :=
      finalScale_mul_h_le ow oh hw hh
    have h2 : (⌊oh * finalScale ow oh⌋ : ℤ) ≤ ⌊a4HeightPt⌋ :=
      Int.floor_le_floor h1
    have h3 : (⌊a4HeightPt⌋ : ℤ) = 842 := by norm_num [a4HeightPt]
    exact h3 ▸ h2
  refine ⟨?_, rfl, rfl, hfw0, hfwle, hfh0, hfhle, ?_, ?_, ?_, ?_⟩
  · unfold imageToPdfFit pageFitSpec finalScale finalMargin scaleWithMargins
      scaleNoMargins availW availH a4WidthPt a4HeightPt marginPt
    rfl
  · rfl
  · rfl
  · refine Int.floor_nonneg.mpr (div_nonneg ?_ (by norm_num))
    have hle : (⌊ow * finalScale ow oh⌋ : ℤ) ≤ 595 := hfwle
    have hcast : ((⌊ow * finalScale ow oh⌋ : ℤ) : ℚ) ≤ 595 := by
      exact_mod_cast hle
    show (0 : ℚ) ≤ 595 - (⌊ow * finalScale ow oh⌋ : ℤ)
    linarith
  · refine Int.floor_nonneg.mpr (div_nonneg ?_ (by norm_num))
    have hle : (⌊oh * finalScale ow oh⌋ : ℤ) ≤ 842 := hfhle
    have hcast : ((⌊oh * finalScale ow oh⌋ : ℤ) : ℚ) ≤ 842 := by
      exact_mod_cast hle
    show (0 : ℚ) ≤ 842 - (⌊oh * finalScale ow oh⌋ : ℤ)
    linarith

/-- C6 witness: a 4000×3000 source image is scaled down onto a portrait
A4 page, fits within 595×842 and sits at nonnegative centered
coordinates. -/
theorem image_page_fit_witness :
    (imageToPdfFit 4000 3000).pageW = 595
    ∧ (imageToPdfFit 4000 3000).pageH = 842
    ∧ (imageToPdfFit 4000 3000).finalW ≤ 595
    ∧ (imageToPdfFit 4000 3000).finalH ≤ 842
    ∧ 0 ≤ (imageToPdfFit 4000 3000).xPos
    ∧ 0 ≤ (imageToPdfFit 4000 3000).yPos := by
  obtain ⟨-, h1, h2, -, h3, -, h4, -, -, h5, h6⟩ :=
    image_page_fit 4000 3000 (by norm_num) (by norm_num)
  exact ⟨h1, h2, h3, h4, h5, h6⟩

/-! ### CID sanitization (`PrinterManager._preprocess_html_for_pdf`)

The source applies `re.sub` with the case-insensitive pattern
`(src|href)=["omitted]cid:[^"omitted]*["omitted]` (where `omitted` stands
for the single-quote character) over the HTML, replacing `src` matches
with a placeholder data-URI image attribute and `href` matches with a
neutral anchor.  The scan below mirrors the regex engine's behaviour:
leftmost non-overlapping matches, the attribute name and the `cid:`
scheme matched case-insensitively, the opening and closing delimiter
each either a double or a single quote, and the value running up to the
first quote character. -/

/-- ASCII lowercasing, as the regex engine's case folding for the
`(?i)` flag on this ASCII-only pattern. -/
def lowerChar (c : Char) : Char :=
  if 'A' ≤ c ∧ c ≤ 'Z' then Char.ofNat (c.toNat + 32) else c

/-- Either quote delimiter admitted by the pattern:
double quote (34) or single quote (39). -/
def isQuoteChar (c : Char) : Bool := c == Char.ofNat 34 || c == Char.ofNat 39

/-- The scheme characters the pattern requires after the opening quote. -/
def cidPat : List Char := ['c', 'i', 'd', ':']

/-- The replacement for a `src` match: the placeholder image data-URI. -/
def srcRepl : List Char :=
  ("src=\"data:image/png;base64,iVBORw0KGgoAAAANSUhEUgAAAAEAAAABCAYAAAAfFcSJAAAADUlEQVR42mNkYPhfDwAChwGA60e6kgAAAABJRU5ErkJggg==\" alt=\"[Embedded Image]\"").toList

/-- The replacement for an `href` match: the neutral anchor. -/
def hrefRepl : List Char := ("href=\"#\" title=\"[Embedded Content]\"").toList

/-- Match a literal pattern case-insensitively at the head of the input,
returning the remainder on success. -/
def stripCI : List Char → List Char → Option (List Char)
  | [], l => some l
  | _ :: _, [] => none
  | p :: ps, c :: cs => if lowerChar c = p then stripCI ps cs else none

/-- `[^"omitted]*["omitted]`: consume value characters up to the first
quote, returning the value and the remainder after the closing quote. -/
def takeBody : List Char → Option (List Char × List Char)
  | [] => none
  | c :: cs =>
    if isQuoteChar c then some ([], cs)
    else
      match takeBody cs with
      | none => none
      | some (b, r) => some (c :: b, r)

/-- After the attribute name: require `=`, an opening quote, the `cid:`
scheme and a quote-terminated value; return the remainder after the
match. -/
def matchCore (l : List Char) : Option (List Char) :=
  match l with
  | e :: q :: rest =>
    if e = '=' ∧ isQuoteChar q then
      match stripCI cidPat rest with
      | none => none
      | some r =>
        match takeBody r with
        | none => none
        | some (_, rest2) => some rest2
    else none
  | _ => none

/-- Try the full pattern at the current position: `src` alternative first,
then `href`; on success return the replacement text and the remainder. -/
def matchAt (l : List Char) : Option (List Char × List Char) :=
  match stripCI (['s', 'r', 'c']) l with
  | some l1 =>
    match matchCore l1 with
    | some rest => some (srcRepl, rest)
    | none => none
  | none =>
    match stripCI (['h', 'r', 'e', 'f']) l with
    | some l1 =>
      match matchCore l1 with
      | some rest => some (hrefRepl, rest)
      | none => none
    | none => none

/-- The `re.sub` scan: at each position, emit the replacement and resume
after the match, or copy one character and advance.  Fuelled by the input
length. -/
def sanitizeCid : Nat → List Char → List Char
  | 0, l => l
  | _ + 1, [] => []
  | fuel + 1, c :: cs =>
    match matchAt (c :: cs) with
    | some (repl, rest) => repl ++ sanitizeCid fuel rest
    | none => c :: sanitizeCid fuel cs

/-- `PrinterManager._preprocess_html_for_pdf`. -/
def preprocessHtmlForPdf (html : List Char) : List Char :=
  sanitizeCid html.length html

/-! ### CID-sanitization lemmas -/

lemma stripCI_length {pat : List Char} :
    ∀ {l r : List Char}, stripCI pat l = some r →
      l.length = pat.length + r.length := by
  induction pat with
  | nil =>
    intro l r h
    unfold stripCI at h
    cases h
    simp
  | cons p ps ih =>
    intro l r h
    cases l with
    | nil => cases h
    | cons c cs =>
      unfold stripCI at h
      by_cases hc : lowerChar c = p
      · rw [if_pos hc] at h
        have := ih h
        simp [this]
        omega
      · rw [if_neg hc] at h
        cases h

lemma stripCI_decomp {pat : List Char} :
    ∀ {l r : List Char}, stripCI pat l = some r →
      ∃ p, l = p ++ r ∧ p.map lowerChar = pat := by
  induction pat with
  | nil =>
    intro l r h
    unfold stripCI at h
    cases h
    exact ⟨[], rfl, rfl⟩
  | cons p ps ih =>
    intro l r h
    cases l with
    | nil => cases h
    | cons c cs =>
      unfold stripCI at h
      by_cases hc : lowerChar c = p
      · rw [if_pos hc] at h
        obtain ⟨p', hp1, hp2⟩ := ih h
        exact ⟨c :: p', by rw [hp1]; rfl, by simp [hp2, hc]⟩
      · rw [if_neg hc] at h
        cases h

lemma takeBody_length :
    ∀ {l b r : List Char}, takeBody l = some (b, r) → r.length < l.length := by
  intro l
  induction l with
  | nil => intro b r h; cases h
  | cons c cs ih =>
    intro b r h
    unfold takeBody at h
    by_cases hq : isQuoteChar c = true
    · rw [if_pos hq] at h
      cases h
      simp
    · rw [if_neg hq] at h
      cases htb : takeBody cs with
      | none => rw [htb] at h; cases h
      | some br =>
        rw [htb] at h
        cases h
        have := ih htb
        simp
        omega

lemma takeBody_app :
    ∀ (b : List Char) (q : Char) (r : List Char),
      (∀ ch ∈ b, isQuoteChar ch = false) → isQuoteChar q = true →
      takeBody (b ++ q :: r) = some (b, r) := by
  intro b
  induction b with
  | nil =>
    intro q r _ hq
    show takeBody (q :: r) = some ([], r)
    unfold takeBody
    rw [if_pos hq]
  | cons c cs ih =>
    intro q r hb hq
    have hc : isQuoteChar c = false := hb c (List.mem_cons_self c cs)
    show takeBody (c :: (cs ++ q :: r)) = some (c :: cs, r)
    unfold takeBody
    rw [if_neg (by rw [hc]; exact Bool.false_ne_true)]
    rw [ih q r (fun ch hch => hb ch (List.mem_cons_of_mem c hch)) hq]

/-- Computation rule for `matchCore` on a two-cons input. -/
lemma matchCore_cons (e q : Char) (rest : List Char) :
    matchCore (e :: q :: rest) =
      if e = '=' ∧ isQuoteChar q then
        match stripCI cidPat rest with
        | none => none
        | some r =>
          match takeBody r with
          | none => none
          | some (_, rest2) => some rest2
      else none := rfl

lemma matchCore_length {l r : List Char} (h : matchCore l = some r) :
    r.length < l.length := by
  cases l with
  | nil => cases h
  | cons e l' =>
    cases l' with
    | nil => cases h
    | cons q rest =>
      rw [matchCore_cons] at h
      by_cases hcond : e = '=' ∧ isQuoteChar q
      · rw [if_pos hcond] at h
        split at h
        · cases h
        · rename_i r1 hs
          split at h
          · cases h
          · rename_i b r2 htb
            injection h with h2
            subst h2
            have h1 := stripCI_length hs
            have h3 := takeBody_length htb
            simp at h1 ⊢
            omega
      · rw [if_neg hcond] at h
        cases h

lemma matchAt_length {l : List Char} {repl rest : List Char}
    (h : matchAt l = some (repl, rest)) : rest.length < l.length := by
  unfold matchAt at h
  split at h
  · rename_i l1 hs
    split at h
    · rename_i r hc
      injection h with hpair
      injection hpair with h1 h2
      subst h2
      have h3 := stripCI_length hs
      have h4 := matchCore_length hc
      simp at h3
      omega
    · cases h
  · rename_i hs
    split at h
    · rename_i l1 hs2
      split at h
      · rename_i r hc
        injection h with hpair
        injection hpair with h1 h2
        subst h2
        have h3 := stripCI_length hs2
        have h4 := matchCore_length hc
        simp at h3
        omega
      · cases h
    · cases h

/-- Computation rule for `sanitizeCid` with fuel left on a cons input. -/
lemma sanitizeCid_succ_cons (fuel : Nat) (c : Char) (cs : List Char) :
    sanitizeCid (fuel + 1) (c :: cs) =
      match matchAt (c :: cs) with
      | some (repl, rest) => repl ++ sanitizeCid fuel rest
      | none => c :: sanitizeCid fuel cs := rfl

lemma sanitizeCid_congr :
    ∀ (f1 f2 : Nat) (l : List Char), l.length ≤ f1 → l.length ≤ f2 →
      sanitizeCid f1 l = sanitizeCid f2 l := by
  intro f1
  induction f1 with
  | zero =>
    intro f2 l h1 h2
    have : l = [] := List.eq_nil_of_length_eq_zero (Nat.le_zero.mp h1)
    subst this
    cases f2 <;> rfl
  | succ f ih =>
    intro f2 l h1 h2
    cases l with
    | nil => cases f2 <;> rfl
    | cons c cs =>
      cases f2 with
      | zero => simp at h2
      | succ f2' =>
        rw [sanitizeCid_succ_cons, sanitizeCid_succ_cons]
        cases hm : matchAt (c :: cs) with
        | some pr =>
          obtain ⟨repl, rest⟩ := pr
          have hlen := matchAt_length hm
          simp only []
          congr 1
          refine ih f2' rest ?_ ?_
          · simp at hlen h1; omega
          · simp at hlen h2; omega
        | none =>
          simp only []
          congr 1
          refine ih f2' cs ?_ ?_
          · simp at h1; omega
          · simp at h2; omega

lemma preprocess_match {c : Char} {cs repl rest : List Char}
    (h : matchAt (c :: cs) = some (repl, rest)) :
    preprocessHtmlForPdf (c :: cs) = repl ++ preprocessHtmlForPdf rest := by
  have hlen := matchAt_length h
  show sanitizeCid (cs.length + 1) (c :: cs) = _
  rw [sanitizeCid_succ_cons, h]
  show repl ++ sanitizeCid cs.length rest = repl ++ sanitizeCid rest.length rest
  congr 1
  refine sanitizeCid_congr cs.length rest.length rest ?_ le_rfl
  simp at hlen
  omega

lemma preprocess_skip {c : Char} {cs : List Char}
    (h : matchAt (c :: cs) = none) :
    preprocessHtmlForPdf (c :: cs) = c :: preprocessHtmlForPdf cs := by
  show sanitizeCid (cs.length + 1) (c :: cs) = _
  rw [sanitizeCid_succ_cons, h]
  rfl

lemma isInfix_app_left {α : Type} {x b : List α} (a : List α) (h : x <:+: b) :
    x <:+: a ++ b := by
  obtain ⟨s, t, hst⟩ := h
  exact ⟨a ++ s, t, by rw [← hst]; simp⟩

lemma isInfix_cons_of {α : Type} {x t : List α} (c : α) (h : x <:+: t) :
    x <:+: c :: t := isInfix_app_left [c] h

lemma matchCore_cid_occurs {l r : List Char} (h : matchCore l = some r) :
    cidPat <:+: l.map lowerChar := by
  cases l with
  | nil => cases h
  | cons e l' =>
    cases l' with
    | nil => cases h
    | cons q rest =>
      rw [matchCore_cons] at h
      by_cases hcond : e = '=' ∧ isQuoteChar q
      · rw [if_pos hcond] at h
        split at h
        · cases h
        · rename_i r1 hs
          obtain ⟨p2, hp1, hp2⟩ := stripCI_decomp hs
          refine isInfix_cons_of (lowerChar e) (isInfix_cons_of (lowerChar q) ?_)
          rw [hp1, List.map_append, ← hp2]
          exact ⟨[], (r1.map lowerChar), by simp⟩
      · rw [if_neg hcond] at h
        cases h

lemma matchAt_cid_occurs {l : List Char} {repl rest : List Char}
    (h : matchAt l = some (repl, rest)) : cidPat <:+: l.map lowerChar := by
  unfold matchAt at h
  split at h
  · rename_i l1 hs
    split at h
    · rename_i r hc
      obtain ⟨p1, hp1, _⟩ := stripCI_decomp hs
      rw [hp1, List.map_append]
      exact isInfix_app_left _ (matchCore_cid_occurs hc)
    · cases h
  · rename_i hs
    split at h
    · rename_i l1 hs2
      split at h
      · rename_i r hc
        obtain ⟨p1, hp1, _⟩ := stripCI_decomp hs2
        rw [hp1, List.map_append]
        exact isInfix_app_left _ (matchCore_cid_occurs hc)
      · cases h
    · cases h

lemma sanitize_nocid :
    ∀ (fuel : Nat) (l : List Char), l.length ≤ fuel →
      ¬ (cidPat <:+: l.map lowerChar) → sanitizeCid fuel l = l := by
  intro fuel
  induction fuel with
  | zero => intro l _ _; rfl
  | succ f ih =>
    intro l h1 h2
    cases l with
    | nil => rfl
    | cons c cs =>
      rw [sanitizeCid_succ_cons]
      cases hm : matchAt (c :: cs) with
      | some pr =>
        obtain ⟨repl, rest⟩ := pr
        exact absurd (matchAt_cid_occurs hm) h2
      | none =>
        simp only []
        congr 1
        refine ih cs (by simp at h1; omega) ?_
        intro hc
        exact h2 (isInfix_cons_of (lowerChar c) hc)

lemma matchAt_src (a1 a2 a3 q1 c1 c2 c3 c4 q2 : Char) (body rest : List Char)
    (h1 : lowerChar a1 = 's') (h2 : lowerChar a2 = 'r') (h3 : lowerChar a3 = 'c')
    (hq1 : isQuoteChar q1 = true) (hq2 : isQuoteChar q2 = true)
    (hc1 : lowerChar c1 = 'c') (hc2 : lowerChar c2 = 'i')
    (hc3 : lowerChar c3 = 'd') (hc4 : lowerChar c4 = ':')
    (hbody : ∀ ch ∈ body, isQuoteChar ch = false) :
    matchAt (a1 :: a2 :: a3 :: '=' :: q1 :: c1 :: c2 :: c3 :: c4
        :: (body ++ q2 :: rest))
      = some (srcRepl, rest) := by
  have hstrip : stripCI (['s', 'r', 'c'])
      (a1 :: a2 :: a3 :: '=' :: q1 :: c1 :: c2 :: c3 :: c4 :: (body ++ q2 :: rest))
      = some ('=' :: q1 :: c1 :: c2 :: c3 :: c4 :: (body ++ q2 :: rest)) := by
    simp [stripCI, h1, h2, h3]
  have hcore : matchCore
      ('=' :: q1 :: c1 :: c2 :: c3 :: c4 :: (body ++ q2 :: rest)) = some rest := by
    rw [matchCore_cons, if_pos ⟨rfl, hq1⟩]
    have hstrip2 : stripCI cidPat (c1 :: c2 :: c3 :: c4 :: (body ++ q2 :: rest))
        = some (body ++ q2 :: rest) := by
      simp [stripCI, cidPat, hc1, hc2, hc3, hc4]
    simp only [hstrip2, takeBody_app body q2 rest hbody hq2]
  simp only [matchAt, hstrip, hcore]

lemma matchAt_href (b1 b2 b3 b4 q1 c1 c2 c3 c4 q2 : Char) (body rest : List Char)
    (h1 : lowerChar b1 = 'h') (h2 : lowerChar b2 = 'r') (h3 : lowerChar b3 = 'e')
    (h4 : lowerChar b4 = 'f')
    (hq1 : isQuoteChar q1 = true) (hq2 : isQuoteChar q2 = true)
    (hc1 : lowerChar c1 = 'c') (hc2 : lowerChar c2 = 'i')
    (hc3 : lowerChar c3 = 'd') (hc4 : lowerChar c4 = ':')
    (hbody : ∀ ch ∈ body, isQuoteChar ch = false) :
    matchAt (b1 :: b2 :: b3 :: b4 :: '=' :: q1 :: c1 :: c2 :: c3 :: c4
        :: (body ++ q2 :: rest))
      = some (hrefRepl, rest) := by
  have hsrcfail : stripCI (['s', 'r', 'c'])
      (b1 :: b2 :: b3 :: b4 :: '=' :: q1 :: c1 :: c2 :: c3 :: c4 :: (body ++ q2 :: rest))
      = none := by
    simp [stripCI, h1]
  have hstrip : stripCI (['h', 'r', 'e', 'f'])
      (b1 :: b2 :: b3 :: b4 :: '=' :: q1 :: c1 :: c2 :: c3 :: c4 :: (body ++ q2 :: rest))
      = some ('=' :: q1 :: c1 :: c2 :: c3 :: c4 :: (body ++ q2 :: rest)) := by
    simp [stripCI, h1, h2, h3, h4]
  have hcore : matchCore
      ('=' :: q1 :: c1 :: c2 :: c3 :: c4 :: (body ++ q2 :: rest)) = some rest := by
    rw [matchCore_cons, if_pos ⟨rfl, hq1⟩]
    have hstrip2 : stripCI cidPat (c1 :: c2 :: c3 :: c4 :: (body ++ q2 :: rest))
        = some (body ++ q2 :: rest) := by
      simp [stripCI, cidPat, hc1, hc2, hc3, hc4]
    simp only [hstrip2, takeBody_app body q2 rest hbody hq2]
  simp only [matchAt, hsrcfail, hstrip, hcore]

/-! ### Claim theorem: C8 -/

/-- C8: the pre-PDF HTML preprocessing (i) returns HTML with no
case-insensitive `cid:` occurrence unchanged, (ii) rewrites a `src`
attribute of the form `src=<quote>cid:...<quote>` (attribute name and
scheme case-insensitive, either quote delimiter, value free of quotes) to
the placeholder image data-URI and continues sanitizing the remainder,
(iii) likewise rewrites an `href` attribute to the neutral
`href="#"` anchor, and (iv) copies any non-matching position unchanged,
so every such attribute in the input is rewritten. -/
theorem cid_sanitization :
    (∀ html : List Char, ¬ (cidPat <:+: html.map lowerChar) →
        preprocessHtmlForPdf html = html)
    ∧ (∀ (a1 a2 a3 q1 c1 c2 c3 c4 q2 : Char) (body rest : List Char),
        lowerChar a1 = 's' → lowerChar a2 = 'r' → lowerChar a3 = 'c' →
        isQuoteChar q1 = true → isQuoteChar q2 = true →
        lowerChar c1 = 'c' → lowerChar c2 = 'i' →
        lowerChar c3 = 'd' → lowerChar c4 = ':' →
        (∀ ch ∈ body, isQuoteChar ch = false) →
        preprocessHtmlForPdf (a1 :: a2 :: a3 :: '=' :: q1 :: c1 :: c2 :: c3 :: c4
            :: (body ++ q2 :: rest))
          = srcRepl ++ preprocessHtmlForPdf rest)
    ∧ (∀ (b1 b2 b3 b4 q1 c1 c2 c3 c4 q2 : Char) (body rest : List Char),
        lowerChar b1 = 'h' → lowerChar b2 = 'r' → lowerChar b3 = 'e' →
        lowerChar b4 = 'f' →
        isQuoteChar q1 = true → isQuoteChar q2 = true →
        lowerChar c1 = 'c' → lowerChar c2 = 'i' →
        lowerChar c3 = 'd' → lowerChar c4 = ':' →
        (∀ ch ∈ body, isQuoteChar ch = false) →
        preprocessHtmlForPdf (b1 :: b2 :: b3 :: b4 :: '=' :: q1 :: c1 :: c2 :: c3
            :: c4 :: (body ++ q2 :: rest))
          = hrefRepl ++ preprocessHtmlForPdf rest)
    ∧ (∀ (c : Char) (cs : List Char), matchAt (c :: cs) = none →
        preprocessHtmlForPdf (c :: cs) = c :: preprocessHtmlForPdf cs) := by
  refine ⟨?_, ?_, ?_, ?_⟩
  · intro html h
    exact sanitize_nocid html.length html le_rfl h
  · intro a1 a2 a3 q1 c1 c2 c3 c4 q2 body rest h1 h2 h3 hq1 hq2 hc1 hc2 hc3 hc4 hbody
    exact preprocess_match
      (matchAt_src a1 a2 a3 q1 c1 c2 c3 c4 q2 body rest
        h1 h2 h3 hq1 hq2 hc1 hc2 hc3 hc4 hbody)
  · intro b1 b2 b3 b4 q1 c1 c2 c3 c4 q2 body rest h1 h2 h3 h4 hq1 hq2 hc1 hc2 hc3 hc4 hbody
    exact preprocess_match
      (matchAt_href b1 b2 b3 b4 q1 c1 c2 c3 c4 q2 body rest
        h1 h2 h3 h4 hq1 hq2 hc1 hc2 hc3 hc4 hbody)
  · intro c cs h
    exact preprocess_skip h

set_option maxRecDepth 8000 in
/-- C8 witness: an uppercase double-quoted `SRC="cid:abc"` attribute is
rewritten to the placeholder image attribute, and cid-free HTML is
returned unchanged. -/
theorem cid_sanitization_witness :
    preprocessHtmlForPdf ('S' :: 'R' :: 'C' :: '=' :: Char.ofNat 34
        :: 'c' :: 'i' :: 'd' :: ':' :: (("abc").toList
          ++ Char.ofNat 34 :: ((" end").toList)))
      = srcRepl ++ preprocessHtmlForPdf ((" end").toList)
    ∧ preprocessHtmlForPdf (("<p>hello</p>").toList) = ("<p>hello</p>").toList := by
  constructor
  · exact cid_sanitization.2.1 'S' 'R' 'C' (Char.ofNat 34) 'c' 'i' 'd' ':'
      (Char.ofNat 34) (("abc").toList) ((" end").toList)
      (by decide) (by decide) (by decide) (by decide) (by decide)
      (by decide) (by decide) (by decide) (by decide) (by decide)
  · exact cid_sanitization.1 (("<p>hello</p>").toList) (by decide)

end Mail2Printer
